import Mathlib

/-!
Shallow embedding of the request-construction pipeline of the `MovieDb`
client class (src/dist/moviedb.js, with the matching source form in
src/unnamed/part_000).

JS strings are modelled as Lean strings or lists of characters; JS objects
holding request parameters are modelled as insertion-ordered association
lists with unique keys, which matches `Object.keys` iteration order for the
non-numeric identifier keys used as parameter names.  Parameter values in
this client are strings and numbers.  Network calls and the clock are
modelled as explicit oracle arguments, so the stateful operations become
pure functions of (state, oracle inputs).
-/

set_option autoImplicit false

namespace MovieDb

/-- A request parameter value: the client sends strings or numbers. -/
inductive Value where
  | str (s : String)
  | num (n : Int)
deriving DecidableEq

/-- A flat JS object of request parameters, in insertion order. -/
abbrev Params := List (String × Value)

/-- JS string coercion applied when a value is substituted into the path or
serialized into the query string. -/
def Value.toDisplay : Value → String
  | .str s => s
  | .num n => toString n

/-- JS truthiness of a property read: an absent property (`undefined`), the
number 0 and the empty string are falsy; every other modelled value is
truthy. -/
def truthy : Option Value → Bool
  | none => false
  | some (.str s) => s != ""
  | some (.num n) => n != 0

/-- First-match lookup in an association list (JS property access). -/
def lookupA {α : Type} (k : String) : List (String × α) → Option α
  | [] => none
  | kv :: rest => if kv.1 = k then some kv.2 else lookupA k rest

/-- Merge of two flat JS objects where properties of `extra` win: keys of
`base` keep their positions (with the overriding value), new keys of `extra`
are appended in `extra` order.  This is lodash `merge(base, extra)` and the
object spread on the flat (string/number-valued) objects this client
builds. -/
def overrideMerge {α : Type} (base extra : List (String × α)) : List (String × α) :=
  base.map (fun kv => (kv.1, (lookupA kv.1 extra).getD kv.2))
    ++ extra.filter (fun kv => (lookupA kv.1 base).isNone)

/-- JS property assignment `obj[k] = v`: an existing key is updated in
place, a new key is appended at the end. -/
def setProp {α : Type} (k : String) (v : α) : List (String × α) → List (String × α)
  | [] => [(k, v)]
  | kv :: rest => if kv.1 = k then (k, v) :: rest else kv :: setProp k v rest

/-- `String.prototype.replace` with a plain string pattern: only the first
occurrence is replaced.  The replacement is inserted verbatim (no value in
this development contains the JS-special replacement character). -/
def replaceFirst (pat repl : List Char) : List Char → List Char
  | [] => []
  | c :: cs =>
    if List.isPrefixOf pat (c :: cs) then repl ++ (c :: cs).drop pat.length
    else c :: replaceFirst pat repl cs

/-- `String.prototype.includes`: `pat` occurs somewhere in the string. -/
def occursIn (pat : List Char) : List Char → Bool
  | [] => pat.isEmpty
  | c :: cs => List.isPrefixOf pat (c :: cs) || occursIn pat cs

/-- `getEndpoint` (moviedb.js lines 50-54): fold over the parameter keys in
insertion order, each step replacing the first occurrence of `":" + key` in
the partially compiled endpoint with the stringified value. -/
def getEndpointL (endpoint : List Char) (params : Params) : List Char :=
  params.foldl (fun s kv => replaceFirst (':' :: kv.1.data) kv.2.toDisplay.data s) endpoint

/-- String-level wrapper of `getEndpointL`. -/
def getEndpoint (endpoint : String) (params : Params) : String :=
  ⟨getEndpointL endpoint.data params⟩

/-- Character class of the placeholder regex: `[a-z]`, and with `ci := true`
(the regex `i` flag) also `[A-Z]`. -/
def phChar (ci : Bool) (c : Char) : Bool :=
  (decide ('a' ≤ c) && decide (c ≤ 'z')) || (ci && decide ('A' ≤ c) && decide (c ≤ 'Z'))

/-- Worker for `scanPH`.  `cur = some nm` means a placeholder match is in
progress whose name so far is `nm` reversed.  This mirrors `String.match`
with the global regex `:[a-z]*`: leftmost, non-overlapping matches, each a
colon followed by a maximal (possibly empty) run of letters. -/
def scanPHGo (ci : Bool) : Option (List Char) → List Char → List (List Char)
  | some nm, [] => [':' :: nm.reverse]
  | none, [] => []
  | some nm, c :: cs =>
    if phChar ci c then scanPHGo ci (some (c :: nm)) cs
    else (':' :: nm.reverse) :: scanPHGo ci (if c = ':' then some [] else none) cs
  | none, c :: cs =>
    if c = ':' then scanPHGo ci (some []) cs else scanPHGo ci none cs

/-- All matches of the placeholder regex `:[a-z]*` in a template
(`endpoint.match(...)` with the `g` flag; `ci` models the `i` flag). -/
def scanPH (ci : Bool) (s : List Char) : List (List Char) :=
  scanPHGo ci none s

/-- The `params` argument of `makeRequest`: either a bare scalar or a
structured object (`lodash.isObject` distinguishes the two). -/
inductive RawParams where
  | scalar (v : Value)
  | mapping (m : Params)
deriving DecidableEq

/-- `normalizeParams` (lines 58-70): an object passes through unchanged; a
scalar is bound to the name of the single match of `/:[a-z]*/g` (no `i`
flag) when the template has exactly one match, and otherwise the result is
the empty object. -/
def normalizeParams (endpoint : String) (params : RawParams) : Params :=
  match params with
  | .mapping m => m
  | .scalar v =>
    match scanPH false endpoint.data with
    | [m] => [(⟨m.drop 1⟩, v)]
    | _ => []

/-- The fields of the `MovieDb` class that request construction reads.
`sessionId = none` models the field never having been assigned
(`undefined`, hence falsy). -/
structure MovieDbState where
  apiKey : String
  baseUrl : String := "https://api.themoviedb.org/3/"
  sessionId : Option String := none
deriving DecidableEq

/-- The defaults merged in by `getParams` (lines 76-79): `api_key` always,
and `session_id` when a session id is set. -/
def defaultParams (c : MovieDbState) : Params :=
  ("api_key", Value.str c.apiKey)
    :: (match c.sessionId with
        | some sid => [("session_id", Value.str sid)]
        | none => [])

/-- `getParams` (lines 74-87): merge the defaults with the caller's params
(caller wins), then, when the endpoint mentions `:id`, the merged `id`
property is falsy and a session id is set, assign the literal account
sentinel to `id`. -/
def getParams (c : MovieDbState) (endpoint : String) (params : Params) : Params :=
  if occursIn (":id").data endpoint.data
      && !truthy (lookupA "id" (overrideMerge (defaultParams c) params))
      && c.sessionId.isSome then
    setProp "id" (Value.str "\x7baccount_id\x7d") (overrideMerge (defaultParams c) params)
  else
    overrideMerge (defaultParams c) params

/-- Modelled from the spec: the `HttpMethod` enum lives in ./types, a file
of this repository that is not under src/; per spec section 6 the client
uses exactly the verbs GET, POST and DELETE, carried on the wire as the
standard verb names. -/
inductive HttpMethod where
  | get
  | post
  | delete
deriving DecidableEq

/-- Modelled from the spec: the string value of the `HttpMethod` enum
member (see `HttpMethod`). -/
def methodStr : HttpMethod → String
  | .get => "GET"
  | .post => "POST"
  | .delete => "DELETE"

/-- The keys stripped from the query/body (line 97): the names of the
matches of the case-insensitive placeholder regex `/:[a-z]*/gi` in the raw
template, with the leading colon sliced off. -/
def omittedProps (endpoint : String) : List String :=
  (scanPH true endpoint.data).map (fun m => ⟨m.drop 1⟩)

/-- lodash `omit`: drop the listed keys, keeping the order of the rest. -/
def omitProps (m : Params) (props : List String) : Params :=
  m.filter (fun kv => !props.contains kv.1)

/-- The full query object of `makeRequest` (line 94): defaults and implicit
id merged over the normalized params. -/
def fullQueryOf (c : MovieDbState) (endpoint : String) (params : RawParams) : Params :=
  getParams c endpoint (normalizeParams endpoint params)

/-- The residual query/body parameters of `makeRequest` (line 99). -/
def residualOf (c : MovieDbState) (endpoint : String) (params : RawParams) : Params :=
  omitProps (fullQueryOf c endpoint params) (omittedProps endpoint)

/-- Uppercase hexadecimal digit, used by percent-encoding. -/
def hexDigitUpper (n : Nat) : Char :=
  if n < 10 then Char.ofNat (48 + n) else Char.ofNat (55 + n)

/-- Lowercase hexadecimal digit, used by JSON control-character escapes. -/
def hexDigitLower (n : Nat) : Char :=
  if n < 10 then Char.ofNat (48 + n) else Char.ofNat (87 + n)

/-- The UTF-8 bytes of a code point, for percent-encoding. -/
def utf8Bytes (n : Nat) : List Nat :=
  if n < 128 then [n]
  else if n < 2048 then [192 + n / 64, 128 + n % 64]
  else if n < 65536 then [224 + n / 4096, 128 + n / 64 % 64, 128 + n % 64]
  else [240 + n / 262144, 128 + n / 4096 % 64, 128 + n / 64 % 64, 128 + n % 64]

/-- `%XX` escape of one byte. -/
def percentByte (b : Nat) : String :=
  ⟨['%', hexDigitUpper (b / 16 % 16), hexDigitUpper (b % 16)]⟩

/-- One character of `URLSearchParams` serialization
(application/x-www-form-urlencoded): space becomes `+`, ASCII alphanumerics
and `*-._` stay, everything else is percent-encoded bytewise. -/
def formChar (c : Char) : String :=
  if c = ' ' then "+"
  else if c.isAlphanum || c = '*' || c = '-' || c = '.' || c = '_' then ⟨[c]⟩
  else String.join ((utf8Bytes c.toNat).map percentByte)

/-- Form-encode one string. -/
def formEncode (s : String) : String :=
  String.join (s.data.map formChar)

/-- `new URLSearchParams(query).toString()` (line 102). -/
def serializeQuery (q : Params) : String :=
  String.intercalate "&" (q.map (fun kv => formEncode kv.1 ++ "=" ++ formEncode kv.2.toDisplay))

/-- One character of a JSON string literal. -/
def jsonEscapeChar (c : Char) : String :=
  if c = '"' then "\\\""
  else if c = '\\' then "\\\\"
  else if c = '\n' then "\\n"
  else if c = '\r' then "\\r"
  else if c = '\t' then "\\t"
  else if c.toNat = 8 then "\\b"
  else if c.toNat = 12 then "\\f"
  else if c.toNat < 32 then "\\u00" ++ ⟨[hexDigitLower (c.toNat / 16), hexDigitLower (c.toNat % 16)]⟩
  else ⟨[c]⟩

/-- A JSON string literal. -/
def jsonString (s : String) : String :=
  "\"" ++ String.join (s.data.map jsonEscapeChar) ++ "\""

/-- JSON encoding of one parameter value. -/
def jsonValue : Value → String
  | .str s => jsonString s
  | .num n => toString n

/-- `JSON.stringify(query)` for the flat query object (line 106). -/
def jsonStringify (q : Params) : String :=
  "\x7b" ++ String.intercalate "," (q.map (fun kv => jsonString kv.1 ++ ":" ++ jsonValue kv.2)) ++ "\x7d"

/-- The assembled request: the URL handed to `fetch` and the options object
(field name to value, both modelled as strings; `body` holds the JSON
text, `method` the verb name). -/
structure Request where
  url : String
  options : List (String × String)
deriving DecidableEq

/-- The options object before the fetch-options spread (lines 104-106):
`method` always, `body` only for non-GET verbs. -/
def baseOptions (method : HttpMethod) (query : Params) : List (String × String) :=
  ("method", methodStr method)
    :: (if method = HttpMethod.get then [] else [("body", jsonStringify query)])

/-- The pure part of `makeRequest` (lines 91-108): everything up to handing
the unit of work to the throttle queue.  `fetchOptions` is spread last over
the computed options. -/
def buildRequest (c : MovieDbState) (method : HttpMethod) (endpoint : String)
    (params : RawParams) (fetchOptions : List (String × String)) : Request :=
  let fullQuery := fullQueryOf c endpoint params
  let query := residualOf c endpoint params
  let url0 := c.baseUrl ++ getEndpoint endpoint fullQuery
  let url := if method = HttpMethod.get then url0 ++ "?" ++ serializeQuery query else url0
  { url := url, options := overrideMerge (baseOptions method query) fetchOptions }

/-- The cached authentication token, with `expires_at` already parsed to
epoch milliseconds (`new Date(token.expires_at).getTime()` in line 30). -/
structure AuthToken where
  success : Bool
  expiresAtMs : Int
  request_token : String
deriving DecidableEq

/-- One call of `requestToken` (lines 29-34), with the clock and the network
response as oracles: returns the new cached-token field, the token returned
to the caller, and the number of network requests performed (0 or 1).  The
cache is used exactly when a token is present and the current time is not
greater than its parsed expiry. -/
def requestTokenStep (cached : Option AuthToken) (nowMs : Int) (response : AuthToken) :
    Option AuthToken × AuthToken × Nat :=
  match cached with
  | none => (some response, response, 1)
  | some t =>
    if nowMs > t.expiresAtMs then (some response, response, 1)
    else (some t, t, 0)

/-- Instrumented `getEndpoint`: computes the same fold and additionally
records which parameter keys actually hit the evolving string (their
pattern `":" + key` occurred at the moment they were processed). -/
def getEndpointTrace (endpoint : List Char) (params : Params) : List Char × List String :=
  params.foldl
    (fun acc kv =>
      if occursIn (':' :: kv.1.data) acc.1 then
        (replaceFirst (':' :: kv.1.data) kv.2.toDisplay.data acc.1, acc.2 ++ [kv.1])
      else (acc.1, acc.2))
    (endpoint, [])

/-- The keys consumed by path substitution. -/
def consumedKeys (endpoint : String) (params : Params) : List String :=
  (getEndpointTrace endpoint.data params).2

/-- The keys actually removed from the full query when computing the
residual parameters: those present in the query that appear in the omit
list. -/
def removedKeys (c : MovieDbState) (endpoint : String) (params : RawParams) : List String :=
  ((fullQueryOf c endpoint params).map Prod.fst).filter
    (fun k => (omittedProps endpoint).contains k)

/-- A client with an API key and no session, as used by the concrete
request-construction evaluations. -/
def noSessionClient : MovieDbState :=
  { apiKey := "KEY", baseUrl := "https://api.themoviedb.org/3/", sessionId := none }

/-- A client with a live session id, as used by the implicit-current-user
evaluations. -/
def sessionClient : MovieDbState :=
  { apiKey := "key", baseUrl := "https://api.themoviedb.org/3/", sessionId := some "sess" }

end MovieDb

namespace MovieDb

/-! ### Lookup lemmas for the object-merge operations -/

lemma lookupA_append {α : Type} (k : String) (l₁ l₂ : List (String × α)) :
    lookupA k (l₁ ++ l₂) = ((lookupA k l₁).orElse fun _ => lookupA k l₂) := by
  induction l₁ with
  | nil => simp [lookupA, Option.orElse]
  | cons kv rest ih =>
    by_cases h : kv.1 = k <;> simp [lookupA, h, ih, Option.orElse]

lemma lookupA_map_getD {α : Type} (k : String) (base extra : List (String × α)) :
    lookupA k (base.map (fun kv => (kv.1, (lookupA kv.1 extra).getD kv.2)))
      = (lookupA k base).map (fun v => (lookupA k extra).getD v) := by
  induction base with
  | nil => simp [lookupA]
  | cons kv rest ih =>
    by_cases h : kv.1 = k <;> simp [lookupA, h, ih]

lemma lookupA_filter_isNone {α : Type} (k : String) (base extra : List (String × α)) :
    lookupA k (extra.filter (fun kv => (lookupA kv.1 base).isNone))
      = if (lookupA k base).isNone then lookupA k extra else none := by
  induction extra with
  | nil => simp [lookupA]
  | cons kv rest ih =>
    by_cases h : kv.1 = k
    · subst h
      by_cases hb : (lookupA kv.1 base).isNone
      · simp [List.filter_cons, hb, lookupA, ih]
      · simp [List.filter_cons, hb, lookupA, ih]
    · by_cases hb : (lookupA kv.1 base).isNone
      · simp [List.filter_cons, hb, lookupA, h, ih]
      · simp [List.filter_cons, hb, lookupA, h, ih]

lemma lookupA_overrideMerge {α : Type} (k : String) (base extra : List (String × α)) :
    lookupA k (overrideMerge base extra)
      = ((lookupA k extra).orElse fun _ => lookupA k base) := by
  unfold overrideMerge
  rw [lookupA_append, lookupA_map_getD, lookupA_filter_isNone]
  cases hb : lookupA k base <;> cases he : lookupA k extra <;>
    simp [Option.orElse, Option.getD]

lemma lookupA_setProp_self {α : Type} (k : String) (v : α) (m : List (String × α)) :
    lookupA k (setProp k v m) = some v := by
  induction m with
  | nil => simp [setProp, lookupA]
  | cons kv rest ih =>
    by_cases h : kv.1 = k
    · simp [setProp, h, lookupA]
    · simp [setProp, h, lookupA, ih]

lemma lookupA_id_defaultParams (c : MovieDbState) :
    lookupA "id" (defaultParams c) = none := by
  have h1 : ¬ (("api_key" : String) = "id") := by decide
  have h2 : ¬ (("session_id" : String) = "id") := by decide
  cases h : c.sessionId <;> simp [defaultParams, h, lookupA, h1, h2]

/-! ### Behavior of the implicit current-user injection in `getParams` -/

lemma getParams_inject_of_falsy (c : MovieDbState) (e : String) (p : Params)
    (hs : c.sessionId.isSome = true)
    (hid : occursIn (":id").data e.data = true)
    (hf : truthy (lookupA "id" (overrideMerge (defaultParams c) p)) = false) :
    lookupA "id" (getParams c e p) = some (Value.str "\x7baccount_id\x7d") := by
  unfold getParams
  simp only [hid, hf, hs, Bool.not_false, Bool.and_self, if_true]
  exact lookupA_setProp_self _ _ _

lemma getParams_of_truthy (c : MovieDbState) (e : String) (p : Params) (v : Value)
    (hv : lookupA "id" p = some v) (ht : truthy (some v) = true) :
    lookupA "id" (getParams c e p) = some v := by
  have hm : lookupA "id" (overrideMerge (defaultParams c) p) = some v := by
    rw [lookupA_overrideMerge, hv]; rfl
  unfold getParams
  simp only [hm, ht, Bool.not_true, Bool.and_false, Bool.false_and, if_false]
  exact hm

lemma getParams_noSession (c : MovieDbState) (e : String) (p : Params)
    (h : c.sessionId = none) :
    getParams c e p = overrideMerge (defaultParams c) p := by
  unfold getParams
  simp [h]

end MovieDb

namespace MovieDb

/-! ### Coherence of the instrumented path compiler -/

lemma replaceFirst_eq_of_not_occurs (pat v : List Char) :
    ∀ s : List Char, occursIn pat s = false → replaceFirst pat v s = s := by
  intro s
  induction s with
  | nil => intro _; rfl
  | cons c cs ih =>
    intro h
    rw [occursIn, Bool.or_eq_false_iff] at h
    simp [replaceFirst, h.1, ih h.2]

lemma getEndpointTrace_fst (endpoint : List Char) (params : Params) :
    (getEndpointTrace endpoint params).1 = getEndpointL endpoint params := by
  unfold getEndpointTrace getEndpointL
  suffices h : ∀ (ps : Params) (s : List Char) (ks : List String),
      (ps.foldl
        (fun acc kv =>
          if occursIn (':' :: kv.1.data) acc.1 then
            (replaceFirst (':' :: kv.1.data) kv.2.toDisplay.data acc.1, acc.2 ++ [kv.1])
          else (acc.1, acc.2))
        (s, ks)).1
      = ps.foldl (fun s kv => replaceFirst (':' :: kv.1.data) kv.2.toDisplay.data s) s by
    exact h params endpoint []
  intro ps
  induction ps with
  | nil => intro s ks; rfl
  | cons kv rest ih =>
    intro s ks
    by_cases h : occursIn (':' :: kv.1.data) s = true
    · simp only [List.foldl_cons, h, if_true]
      exact ih _ _
    · have h' : occursIn (':' :: kv.1.data) s = false := by
        cases hb : occursIn (':' :: kv.1.data) s
        · rfl
        · exact absurd hb h
      simp only [List.foldl_cons, h', if_false, Bool.false_eq_true]
      rw [replaceFirst_eq_of_not_occurs _ _ _ h']
      exact ih _ _

/-! ### Claim theorems: concrete pipeline evaluations -/

/-- C1: for template "tv/:id/season/:season_number" and params
(id 42, season_number 3) the compiled path is "tv/42/season/3" as the claim
states, but the residual mapping is (api_key, season_number): the key
"season_number" is NOT removed, because the omit list is computed with the
regex `:[a-z]*` which stops at the underscore and yields (id, season).  The
claim's residual half fails on the code; the code contradicts its own
comment ("Get the params that are needed for the endpoint to remove"). -/
theorem C1_eval :
    getEndpoint "tv/:id/season/:season_number"
        (fullQueryOf noSessionClient "tv/:id/season/:season_number"
          (.mapping [("id", .num 42), ("season_number", .num 3)]))
      = "tv/42/season/3"
  ∧ residualOf noSessionClient "tv/:id/season/:season_number"
        (.mapping [("id", .num 42), ("season_number", .num 3)])
      = [("api_key", .str "KEY"), ("season_number", .num 3)] := by
  constructor
  · decide
  · decide

/-- C2: the set of keys consumed by path substitution and the set of keys
removed from the residual disagree on the same input: path substitution
consumes both "id" and "season_number" (their patterns occur in the
evolving string), while the residual computation removes only "id" (the
case-insensitive regex `:[a-z]*` cannot produce a name containing an
underscore).  The claim that the two computations never disagree fails on
the code. -/
theorem C2_eval :
    consumedKeys "tv/:id/season/:season_number"
        (fullQueryOf noSessionClient "tv/:id/season/:season_number"
          (.mapping [("id", .num 42), ("season_number", .num 3)]))
      = ["id", "season_number"]
  ∧ removedKeys noSessionClient "tv/:id/season/:season_number"
        (.mapping [("id", .num 42), ("season_number", .num 3)])
      = ["id"]
  ∧ (["id", "season_number"] : List String) ≠ ["id"] := by
  refine ⟨by decide, by decide, by decide⟩

/-- C3 counterexample: the template "a/:x/b/:x" contains exactly one
DISTINCT placeholder name ("x"), so the claim predicts that normalizing the
scalar 5 yields the mapping (x, 5); the code counts regex matches with
multiplicity (two matches here) and returns the empty mapping instead. -/
theorem C3_counterexample :
    normalizeParams "a/:x/b/:x" (.scalar (.num 5)) = []
  ∧ ((scanPH false ("a/:x/b/:x").data).map (fun m => String.mk (m.drop 1))).dedup = ["x"]
  ∧ ([] : Params) ≠ [("x", Value.num 5)] := by
  refine ⟨by decide, by decide, by decide⟩

/-- C3 (amended): a structured mapping passes through normalization
unchanged.  For a scalar, the template is scanned for matches of the
pattern `:[a-z]*` (a colon followed by a maximal, possibly empty run of
lowercase letters); if there is exactly one match counted WITH multiplicity
(not one distinct name) the result binds that match's name to the scalar,
and otherwise the result is the empty mapping.  The spec's two concrete
examples hold as stated. -/
theorem C3_normalize :
    (∀ (e : String) (v : Value),
      normalizeParams e (.scalar v)
        = if (scanPH false e.data).length = 1
          then [(⟨((scanPH false e.data).headD []).drop 1⟩, v)]
          else [])
  ∧ (∀ (e : String) (m : Params), normalizeParams e (.mapping m) = m)
  ∧ normalizeParams "movie/:id" (.scalar (.num 550)) = [("id", .num 550)]
  ∧ normalizeParams "tv/:id/season/:season_number" (.scalar (.num 550)) = [] := by
  refine ⟨?_, ?_, by decide, by decide⟩
  · intro e v
    cases h : scanPH false e.data with
    | nil => simp [normalizeParams, h]
    | cons m rest =>
      cases rest with
      | nil => simp [normalizeParams, h]
      | cons m2 rest2 => simp [normalizeParams, h]
  · intro e m
    rfl

/-- C6: starting with an empty cache, the first `requestToken` call
performs one network request and caches the response; a second call while
the cached token is unexpired (current time not greater than its parsed
expiry) performs zero requests and returns the same cached token, so the
two immediate calls perform exactly one request in total; a later call
after expiry performs a second request and replaces the cached token
wholesale with the new response. -/
theorem C6_token_cache (now₁ now₂ now₃ : Int) (r₁ r₂ r₃ : AuthToken)
    (h₂ : ¬ now₂ > r₁.expiresAtMs) (h₃ : now₃ > r₁.expiresAtMs) :
    requestTokenStep none now₁ r₁ = (some r₁, r₁, 1)
  ∧ requestTokenStep (some r₁) now₂ r₂ = (some r₁, r₁, 0)
  ∧ requestTokenStep (some r₁) now₃ r₃ = (some r₃, r₃, 1) := by
  refine ⟨rfl, ?_, ?_⟩
  · simp [requestTokenStep, h₂]
  · simp [requestTokenStep, h₃]

/-- A concrete token used by the C6 witness. -/
def tokA : AuthToken := { success := true, expiresAtMs := 1000, request_token := "tok-a" }

/-- A concrete token used by the C6 witness. -/
def tokB : AuthToken := { success := true, expiresAtMs := 5000, request_token := "tok-b" }

/-- C6 witness: the token-cache theorem at concrete times 0, 500 and 2000
against a token expiring at 1000. -/
theorem C6_token_cache_witness :
    requestTokenStep none 0 tokA = (some tokA, tokA, 1)
  ∧ requestTokenStep (some tokA) 500 tokB = (some tokA, tokA, 0)
  ∧ requestTokenStep (some tokA) 2000 tokB = (some tokB, tokB, 1) :=
  C6_token_cache 0 500 2000 tokA tokB tokB (by decide) (by decide)

end MovieDb

namespace MovieDb

/-! ### Claim theorems: verb-dependent encoding and fetch-options layering -/

/-- C4: for every client, endpoint and parameter argument (with no
fetch-options override), a GET request appends the form-encoded residual as
a query string to the URL and carries no body field, while POST and DELETE
requests leave the URL without a residual query string and carry the
JSON-encoded residual as the body; concretely the residual (language "en")
serializes to the query string "language=en" and to the JSON body text of a
one-field object. -/
theorem C4_encoding :
    (∀ (c : MovieDbState) (e : String) (p : RawParams),
      (buildRequest c .get e p []).url
        = c.baseUrl ++ getEndpoint e (fullQueryOf c e p) ++ "?"
            ++ serializeQuery (residualOf c e p)
      ∧ lookupA "body" (buildRequest c .get e p []).options = none
      ∧ (buildRequest c .post e p []).url = c.baseUrl ++ getEndpoint e (fullQueryOf c e p)
      ∧ lookupA "body" (buildRequest c .post e p []).options
          = some (jsonStringify (residualOf c e p))
      ∧ (buildRequest c .delete e p []).url = c.baseUrl ++ getEndpoint e (fullQueryOf c e p)
      ∧ lookupA "body" (buildRequest c .delete e p []).options
          = some (jsonStringify (residualOf c e p)))
  ∧ serializeQuery [("language", .str "en")] = "language=en"
  ∧ jsonStringify [("language", .str "en")] = "\x7b\"language\":\"en\"\x7d" := by
  have hmb : ¬ (("method" : String) = "body") := by decide
  have hbb : (("body" : String) = "body") := rfl
  refine ⟨?_, by decide, by decide⟩
  intro c e p
  refine ⟨rfl, ?_, rfl, ?_, rfl, ?_⟩
  · show lookupA "body" (overrideMerge (baseOptions .get (residualOf c e p)) []) = none
    rw [lookupA_overrideMerge]
    simp [lookupA, baseOptions, Option.orElse, hmb]
  · show lookupA "body" (overrideMerge (baseOptions .post (residualOf c e p)) [])
      = some (jsonStringify (residualOf c e p))
    rw [lookupA_overrideMerge]
    simp [lookupA, baseOptions, Option.orElse, hmb, hbb]
  · show lookupA "body" (overrideMerge (baseOptions .delete (residualOf c e p)) [])
      = some (jsonStringify (residualOf c e p))
    rw [lookupA_overrideMerge]
    simp [lookupA, baseOptions, Option.orElse, hmb, hbb]

/-- C8: the caller-supplied fetch-options bag is spread last over the
computed options object and never touches the URL: the URL is the same for
any two fetch-option bags, and for every field the assembled options hold
the fetch-options value when the bag targets that field and the computed
value (method, and body for non-GET) otherwise. -/
theorem C8_fetchOptions (c : MovieDbState) (m : HttpMethod) (e : String)
    (p : RawParams) (fo fo' : List (String × String)) :
    (buildRequest c m e p fo).url = (buildRequest c m e p fo').url
  ∧ ∀ k : String,
      lookupA k (buildRequest c m e p fo).options
        = ((lookupA k fo).orElse fun _ => lookupA k (baseOptions m (residualOf c e p))) := by
  constructor
  · rfl
  · intro k
    exact lookupA_overrideMerge k (baseOptions m (residualOf c e p)) fo

/-! ### Claim theorems: implicit current-user injection -/

/-- C5 counterexample: with a live session and the caller explicitly
supplying the falsy value 0 for "id", the injection still fires and
overwrites the explicit value with the account sentinel — refuting the
claim's parenthetical that an explicit "id" key means no injection. -/
theorem C5_counterexample :
    lookupA "id" (getParams sessionClient "account/:id/favorite/movies" [("id", Value.num 0)])
      = some (Value.str "\x7baccount_id\x7d")
  ∧ some (Value.str "\x7baccount_id\x7d") ≠ some (Value.num 0) := by
  refine ⟨by decide, by decide⟩

/-- C5 (amended): when the endpoint mentions ":id", the merged mapping has
no "id" key and a session id is set, the sentinel is injected as the "id"
parameter; with no session set the merge result is returned untouched (no
injection); an explicit "id" key prevents the injection only when its value
is truthy; and on the spec's concrete endpoint with a live session and no
explicit id the compiled path contains the literal segment of the account
sentinel. -/
theorem C5_injection (c : MovieDbState) (e : String) (p : Params)
    (hs : c.sessionId.isSome = true)
    (hid : occursIn (":id").data e.data = true)
    (hnone : lookupA "id" p = none) :
    lookupA "id" (getParams c e p) = some (Value.str "\x7baccount_id\x7d")
  ∧ (∀ (c' : MovieDbState) (e' : String) (p' : Params), c'.sessionId = none →
      getParams c' e' p' = overrideMerge (defaultParams c') p')
  ∧ (∀ (c' : MovieDbState) (e' : String) (p' : Params) (v : Value),
      lookupA "id" p' = some v → truthy (some v) = true →
      lookupA "id" (getParams c' e' p') = some v)
  ∧ occursIn ("\x7baccount_id\x7d").data
      (getEndpoint "account/:id/favorite/movies"
        (getParams sessionClient "account/:id/favorite/movies" [])).data = true := by
  have hm : lookupA "id" (overrideMerge (defaultParams c) p) = none := by
    rw [lookupA_overrideMerge, hnone, lookupA_id_defaultParams]
    rfl
  refine ⟨getParams_inject_of_falsy c e p hs hid (by rw [hm]; rfl), ?_, ?_, by decide⟩
  · intro c' e' p' h
    exact getParams_noSession c' e' p' h
  · intro c' e' p' v hv ht
    exact getParams_of_truthy c' e' p' v hv ht

/-- C5 witness: the amended injection theorem applied to the concrete
session client, the spec's account endpoint and the empty parameter
mapping. -/
theorem C5_injection_witness :
    lookupA "id" (getParams sessionClient "account/:id/favorite/movies" [])
      = some (Value.str "\x7baccount_id\x7d") :=
  (C5_injection sessionClient "account/:id/favorite/movies" [] (by decide) (by decide) rfl).1

/-- C10: with a live session and an endpoint mentioning ":id", an explicit
"id" parameter whose value is falsy (the number 0 or the empty string) is
overwritten by the account sentinel: the injection condition tests the
merged "id" value for falsiness, not the key for absence. -/
theorem C10_falsy_id (c : MovieDbState) (e : String) (p : Params) (v : Value)
    (hs : c.sessionId.isSome = true)
    (hid : occursIn (":id").data e.data = true)
    (hv : lookupA "id" p = some v)
    (hf : truthy (some v) = false) :
    lookupA "id" (getParams c e p) = some (Value.str "\x7baccount_id\x7d") := by
  have hm : lookupA "id" (overrideMerge (defaultParams c) p) = some v := by
    rw [lookupA_overrideMerge, hv]
    rfl
  exact getParams_inject_of_falsy c e p hs hid (by rw [hm]; exact hf)

/-- C10 witness: the falsy-id theorem applied to the session client, the
endpoint "list/:id" and an explicit empty-string id. -/
theorem C10_falsy_id_witness :
    lookupA "id" (getParams sessionClient "list/:id" [("id", Value.str "")])
      = some (Value.str "\x7baccount_id\x7d") :=
  C10_falsy_id sessionClient "list/:id" [("id", Value.str "")] (Value.str "")
    (by decide) (by decide) (by decide) (by decide)

end MovieDb

namespace MovieDb

/-! ### Survival of untouched placeholders under `replaceFirst` -/

lemma colon_prefix_of_split :
    ∀ (k a rest t : List Char), ':' ∉ k → a ++ ':' :: rest = k ++ t → k <+: a := by
  intro k
  induction k with
  | nil => intro a rest t _ _; exact List.nil_prefix
  | cons c k' ih =>
    intro a rest t hk h
    cases a with
    | nil =>
      simp only [List.nil_append, List.cons_append] at h
      injection h with h1 h2
      subst h1
      exact absurd (List.mem_cons_self _ _) hk
    | cons x a' =>
      simp only [List.cons_append] at h
      injection h with h1 h2
      subst h1
      have hk' : ':' ∉ k' := fun hm => hk (List.mem_cons_of_mem _ hm)
      exact List.cons_prefix_cons.mpr ⟨rfl, ih a' rest t hk' h2⟩

lemma prefix_replaceFirst_no_colon (k v : List Char) :
    ∀ (name cs : List Char), ':' ∉ name → name <+: cs →
      name <+: replaceFirst (':' :: k) v cs := by
  intro name
  induction name with
  | nil => intro cs _ _; exact List.nil_prefix
  | cons n name' ih =>
    intro cs hn hp
    cases cs with
    | nil =>
      exact absurd (List.prefix_nil.mp hp) (by simp)
    | cons c cs' =>
      obtain ⟨h1, h2⟩ := List.cons_prefix_cons.mp hp
      subst h1
      have hne' : n ≠ ':' := by
        intro h
        exact hn (by rw [h]; exact List.mem_cons_self _ _)
      have hne : ((':' : Char) == n) = false := beq_eq_false_iff_ne.mpr (Ne.symm hne')
      have hstep : replaceFirst (':' :: k) v (n :: cs') = n :: replaceFirst (':' :: k) v cs' := by
        simp [replaceFirst, List.isPrefixOf, hne]
      rw [hstep]
      exact List.cons_prefix_cons.mpr
        ⟨rfl, ih cs' (fun hm => hn (List.mem_cons_of_mem _ hm)) h2⟩

lemma infix_replaceFirst (name k v : List Char)
    (hname : ':' ∉ name) (hk : ':' ∉ k)
    (h1 : ¬ (k <+: name)) (h2 : ¬ (name <+: k)) :
    ∀ s : List Char, (':' :: name) <:+: s →
      (':' :: name) <:+: replaceFirst (':' :: k) v s := by
  intro s
  induction s with
  | nil =>
    intro h
    exact absurd (List.infix_nil.mp h) (by simp)
  | cons c cs ih =>
    intro hinf
    by_cases hpre : List.isPrefixOf (':' :: k) (c :: cs) = true
    · have heq : replaceFirst (':' :: k) v (c :: cs)
          = v ++ (c :: cs).drop (':' :: k).length := by
        simp [replaceFirst, hpre]
      obtain ⟨t, ht0⟩ := List.isPrefixOf_iff_prefix.mp hpre
      have hdrop : (c :: cs).drop (':' :: k).length = t := by
        rw [← ht0]
        exact List.drop_left _ _
      obtain ⟨a, b, hab⟩ := hinf
      cases a with
      | nil =>
        simp only [List.nil_append, List.cons_append] at hab
        have ht1 := ht0
        simp only [List.cons_append] at ht1
        have hnb : name ++ b = k ++ t := by
          have h12 := hab.trans ht1.symm
          injection h12 with h' h''
        have hA : name <+: k ++ t := hnb ▸ List.prefix_append name b
        rcases List.prefix_or_prefix_of_prefix hA (List.prefix_append k t) with h | h
        · exact absurd h h2
        · exact absurd h h1
      | cons x a' =>
        simp only [List.cons_append, List.append_assoc] at hab
        have ht1 := ht0
        simp only [List.cons_append] at ht1
        have hsplit : a' ++ ':' :: (name ++ b) = k ++ t := by
          have h12 := hab.trans ht1.symm
          injection h12 with h' h''
        obtain ⟨a₂, ha₂⟩ := colon_prefix_of_split k a' (name ++ b) t hk hsplit
        have hT : t = a₂ ++ ':' :: (name ++ b) := by
          rw [← ha₂, List.append_assoc] at hsplit
          exact (List.append_cancel_left hsplit).symm
        rw [heq, hdrop, hT]
        exact ⟨v ++ a₂, b, by simp [List.append_assoc]⟩
    · have hpre' : List.isPrefixOf (':' :: k) (c :: cs) = false := by
        cases hb : List.isPrefixOf (':' :: k) (c :: cs)
        · rfl
        · exact absurd hb hpre
      have heq : replaceFirst (':' :: k) v (c :: cs) = c :: replaceFirst (':' :: k) v cs := by
        simp [replaceFirst, hpre']
      rw [heq]
      obtain ⟨a, b, hab⟩ := hinf
      cases a with
      | nil =>
        simp only [List.nil_append, List.cons_append] at hab
        injection hab with hc hcs
        have hpn : name <+: replaceFirst (':' :: k) v cs :=
          prefix_replaceFirst_no_colon k v name cs hname ⟨b, hcs⟩
        obtain ⟨t', ht'⟩ := hpn
        refine ⟨[], t', ?_⟩
        simp only [List.nil_append, List.cons_append]
        rw [← hc, ht']
      | cons x a' =>
        simp only [List.cons_append, List.append_assoc] at hab
        injection hab with hx hcs
        have hsub : (':' :: name) <:+: cs :=
          ⟨a', b, by simp only [List.append_assoc, List.cons_append]; exact hcs⟩
        obtain ⟨a'', b'', h''⟩ := ih hsub
        refine ⟨c :: a'', b'', ?_⟩
        simp only [List.cons_append]
        rw [h'']

lemma infix_getEndpointL (name : List Char) (hname : ':' ∉ name) :
    ∀ (params : Params) (s : List Char),
      (∀ kv ∈ params, ':' ∉ kv.1.data ∧ ¬ (kv.1.data <+: name) ∧ ¬ (name <+: kv.1.data)) →
      (':' :: name) <:+: s →
      (':' :: name) <:+: getEndpointL s params := by
  intro params
  induction params with
  | nil => intro s _ h; exact h
  | cons kv rest ih =>
    intro s hkeys hs
    have hkv := hkeys kv (List.mem_cons_self kv rest)
    have hrest : ∀ kv' ∈ rest,
        ':' ∉ kv'.1.data ∧ ¬ (kv'.1.data <+: name) ∧ ¬ (name <+: kv'.1.data) :=
      fun kv' hm => hkeys kv' (List.mem_cons_of_mem kv hm)
    unfold getEndpointL
    simp only [List.foldl_cons]
    exact ih (replaceFirst (':' :: kv.1.data) kv.2.toDisplay.data s) hrest
      (infix_replaceFirst name kv.1.data kv.2.toDisplay.data hname hkv.1 hkv.2.1 hkv.2.2 s hs)

/-- C7 counterexample: in template "a/:idx" the placeholder ":idx" has no
corresponding parameter ("idx" is not a key), yet compiling with the
parameter (id, "Z") yields "a/Zx": the replacement of ":id" (a prefix of
the placeholder text) destroys ":idx", which is not left verbatim as the
claim requires for every template and mapping. -/
theorem C7_counterexample :
    getEndpoint "a/:idx" [("id", Value.str "Z")] = "a/Zx"
  ∧ ¬ ((":idx").data <:+: ("a/Zx").data) := by
  refine ⟨by decide, by decide⟩

/-- C7 (amended): path compilation is a total function (it never raises),
and a placeholder ":name" occurring in the template is left verbatim in the
compiled path whenever no supplied parameter key contains a colon and no
supplied key is a prefix of the placeholder's name or has it as a prefix
(in particular no parameter named "name" is supplied, since "name" is a
prefix of itself). -/
theorem C7_passthrough (endpoint : String) (params : Params) (name : String)
    (hname : ':' ∉ name.data)
    (hkeys : ∀ kv ∈ params, ':' ∉ kv.1.data
        ∧ ¬ (kv.1.data <+: name.data) ∧ ¬ (name.data <+: kv.1.data))
    (hocc : (':' :: name.data) <:+: endpoint.data) :
    (':' :: name.data) <:+: (getEndpoint endpoint params).data :=
  infix_getEndpointL name.data hname params endpoint.data hkeys hocc

/-- C7 witness: the placeholder ":id" of "movie/:id" survives compilation
against the unrelated parameter (language, "en"). -/
theorem C7_passthrough_witness :
    (':' :: ("id" : String).data)
      <:+: (getEndpoint "movie/:id" [("language", Value.str "en")]).data :=
  C7_passthrough "movie/:id" [("language", Value.str "en")] "id"
    (by decide) (by decide) (by decide)

end MovieDb

namespace MovieDb

/-! ### The Throttled Dispatcher

The throttle is provided by the external promise-throttle package, which is
not part of src/; the dispatcher below is therefore modelled from the
spec's contract for it (spec sections 4.1 and 5). -/

/-- Modelled from the spec: the Throttled Dispatcher state (promise-throttle
is an external dependency absent from src/).  `pending` holds the submitted
units of work in FIFO submission order, `started` logs the units that have
begun execution with their start times, and `nextFree` is the earliest time
the rate limit permits the next start. -/
structure ThrottleState where
  pending : List Nat
  started : List (Nat × Nat)
  nextFree : Nat
deriving DecidableEq

/-- Modelled from the spec: one scheduling opportunity at time `t` — the
head pending unit starts exactly when the rate limit permits
(`nextFree ≤ t`), and a start reserves the next `interval` of time.  Units
are taken only from the head (FIFO) and are never discarded. -/
def throttleTick (interval : Nat) (s : ThrottleState) (t : Nat) : ThrottleState :=
  match s.pending with
  | [] => s
  | u :: rest =>
    if s.nextFree ≤ t then
      { pending := rest, started := s.started ++ [(u, t)], nextFree := t + interval }
    else s

/-- Modelled from the spec: a dispatcher run — the submitted units queued in
submission order, processed over a sequence of scheduling opportunities. -/
def runThrottle (interval : Nat) (units : List Nat) (times : List Nat) : ThrottleState :=
  times.foldl (throttleTick interval) { pending := units, started := [], nextFree := 0 }

/-- Invariant of the dispatcher model: started units followed by pending
units are exactly the submitted units in order; starts are pairwise spaced
by at least the interval; and every recorded start lies at least one
interval before the next permitted start. -/
def ThrottleInv (interval : Nat) (units : List Nat) (s : ThrottleState) : Prop :=
  s.started.map Prod.fst ++ s.pending = units
  ∧ s.started.Pairwise (fun a b => a.2 + interval ≤ b.2)
  ∧ ∀ x ∈ s.started, x.2 + interval ≤ s.nextFree

lemma throttleTick_inv (interval : Nat) (units : List Nat) (t : Nat) :
    ∀ s : ThrottleState,
      ThrottleInv interval units s → ThrottleInv interval units (throttleTick interval s t) := by
  rintro ⟨pending, started, nextFree⟩ ⟨h1, h2, h3⟩
  cases pending with
  | nil => exact ⟨h1, h2, h3⟩
  | cons u rest =>
    by_cases hle : nextFree ≤ t
    · have htick : throttleTick interval ⟨u :: rest, started, nextFree⟩ t
          = ⟨rest, started ++ [(u, t)], t + interval⟩ := by
        simp [throttleTick, hle]
      rw [htick]
      refine ⟨?_, ?_, ?_⟩
      · simp only [List.map_append, List.map_cons, List.map_nil]
        rw [List.append_assoc]
        simpa using h1
      · rw [List.pairwise_append]
        refine ⟨h2, List.pairwise_singleton _ _, ?_⟩
        intro a ha b hb
        simp only [List.mem_singleton] at hb
        subst hb
        have ha3 := h3 a ha
        dsimp only at ha3 ⊢
        omega
      · intro x hx
        simp only [List.mem_append, List.mem_singleton] at hx
        rcases hx with hx | hx
        · have hx3 := h3 x hx
          dsimp only at hx3 ⊢
          omega
        · subst hx
          simp
    · have htick : throttleTick interval ⟨u :: rest, started, nextFree⟩ t
          = ⟨u :: rest, started, nextFree⟩ := by
        simp [throttleTick, hle]
      rw [htick]
      exact ⟨h1, h2, h3⟩

lemma runThrottle_inv (interval : Nat) (units : List Nat) (times : List Nat) :
    ThrottleInv interval units (runThrottle interval units times) := by
  have h0 : ThrottleInv interval units ⟨units, [], 0⟩ := by
    refine ⟨by simp, List.Pairwise.nil, ?_⟩
    intro x hx
    simp at hx
  suffices h : ∀ (ts : List Nat) (s : ThrottleState),
      ThrottleInv interval units s →
      ThrottleInv interval units (ts.foldl (throttleTick interval) s) by
    exact h times _ h0
  intro ts
  induction ts with
  | nil => intro s hs; exact hs
  | cons t ts ih =>
    intro s hs
    exact ih _ (throttleTick_inv interval units t s hs)

/-- C9: in the dispatcher model, after any run the units that began
execution followed by the still-pending units equal the submitted units in
submission order (FIFO starts, never reordered, never dropped), consecutive
starts are spaced by at least the configured interval, and with a positive
interval start times are strictly increasing, so each unit begins before
the next one does. -/
theorem C9_throttle (interval : Nat) (units times : List Nat) (hpos : 0 < interval) :
    ((runThrottle interval units times).started.map Prod.fst)
        ++ (runThrottle interval units times).pending = units
  ∧ (runThrottle interval units times).started.Pairwise (fun a b => a.2 + interval ≤ b.2)
  ∧ (runThrottle interval units times).started.Pairwise (fun a b => a.2 < b.2) := by
  obtain ⟨h1, h2, h3⟩ := runThrottle_inv interval units times
  refine ⟨h1, h2, ?_⟩
  exact h2.imp (fun hab => by omega)

/-- C9 witness: a run with rate limit one start per unit of time over two
submitted units and two scheduling opportunities. -/
theorem C9_throttle_witness :
    ((runThrottle 1 [10, 20] [0, 1]).started.map Prod.fst)
        ++ (runThrottle 1 [10, 20] [0, 1]).pending = [10, 20]
  ∧ (runThrottle 1 [10, 20] [0, 1]).started.Pairwise (fun a b => a.2 + 1 ≤ b.2)
  ∧ (runThrottle 1 [10, 20] [0, 1]).started.Pairwise (fun a b => a.2 < b.2) :=
  C9_throttle 1 [10, 20] [0, 1] (by decide)

end MovieDb
